import Mathlib

/-!
Verification of the OTT_Server media-streaming service (C sources) against its
natural-language specification.  The C functions relevant to the checked claims
are shallowly embedded as executable Lean definitions operating on lists of
characters, integers and explicit store states; theorems below settle each
claim.  Machine integers are modelled with Nat/Int, with explicit remarks where
C overflow or saturation behaviour matters.
-/

/-! ## C character classification and numeric-string parsing -/

/-- C `isspace` for the default locale: space, tab, newline, vertical tab,
form feed, carriage return. -/
def isSpace (c : Char) : Bool :=
  c == ' ' || c == '\t' || c == '\n' || c == '\x0b' || c == '\x0c' || c == '\r'

/-- C `isdigit`. -/
def isDigit (c : Char) : Bool :=
  '0' ≤ c && c ≤ '9'

/-- Value of a string of decimal digits (most significant first). -/
def digitsVal (ds : List Char) : Nat :=
  ds.foldl (fun a c => a * 10 + (c.toNat - 48)) 0

/-- Model of C `strtol(s, &end, 10)`: skip leading whitespace, optional sign,
then decimal digits.  Returns the parsed value together with the unconsumed
rest of the string; when no digits are consumed the rest is the whole input
(C sets `endptr` back to `nptr` in that case).  Values are unbounded integers;
the callers below compare against `INT_MAX`, which subsumes the saturation
C performs at `LONG_MAX`/`LONG_MIN`. -/
def strtol (s : List Char) : Int × List Char :=
  match s.dropWhile isSpace with
  | '+' :: r =>
    match r.takeWhile isDigit with
    | [] => (0, s)
    | ds => ((digitsVal ds : Int), r.drop ds.length)
  | '-' :: r =>
    match r.takeWhile isDigit with
    | [] => (0, s)
    | ds => (-(digitsVal ds : Int), r.drop ds.length)
  | t =>
    match t.takeWhile isDigit with
    | [] => (0, s)
    | ds => ((digitsVal ds : Int), t.drop ds.length)

/-- C `strtoll` used by `parse_range_header`; same decimal grammar as
`strtol`.  Saturation at `LLONG_MAX` does not change any accept/reject or
clamping outcome for file sizes representable in `off_t`, so the value is kept
unbounded. -/
def strtoll (s : List Char) : Int × List Char :=
  strtol s

/-- `INT_MAX` of the target platform. -/
def INT_MAX : Int := 2147483647

/-- `parse_int` from `src/server/src/history.c` (the copy in the video module
is textually identical): `strtol`, reject when characters trail the number or
the value lies outside `[0, INT_MAX]`; `none` models a NULL argument. -/
def parse_int (s : Option (List Char)) : Int :=
  match s with
  | none => -1
  | some l =>
    if (strtol l).2 ≠ [] then -1
    else if (strtol l).1 < 0 ∨ (strtol l).1 > INT_MAX then -1
    else (strtol l).1

/-! ## Range-streaming engine (video module, `parse_range_header` and the
206 path of `video_handle_stream`) -/

/-- `parse_range_header` from the video module: accepts `bytes=<start>-<end>?`
and the suffix form `bytes=-N`, validating / clamping against `file_size`. -/
def parse_range_header (header : List Char) (file_size : Int) :
    Option (Int × Int) :=
  if ("bytes=".toList).isPrefixOf header then
    match (header.drop 6).dropWhile (fun c => c != '-') with
    | [] => none
    | _ :: afterDash =>
      if (header.drop 6).head? = some '-' then
        if (strtoll afterDash).1 ≤ 0 then none
        else
          some (file_size -
              (if (strtoll afterDash).1 > file_size then file_size
               else (strtoll afterDash).1),
            file_size - 1)
      else
        if (strtoll (header.drop 6)).1 < 0 ∨
            (strtoll (header.drop 6)).1 ≥ file_size then none
        else if afterDash = [] then some ((strtoll (header.drop 6)).1, file_size - 1)
        else
          if (strtoll afterDash).1 < (strtoll (header.drop 6)).1 then none
          else
            some ((strtoll (header.drop 6)).1,
              if (strtoll afterDash).1 ≥ file_size then file_size - 1
              else (strtoll afterDash).1)
  else none

/-- Content-Length actually emitted by `http_send_file_response` when called
with requested length `end - start + 1` at offset `start`: a zero or
overlarge request length is replaced by the remaining file size. -/
def stream_content_length (file_size start e : Int) : Int :=
  if e - start + 1 = 0 ∨ e - start + 1 > file_size - start then file_size - start
  else e - start + 1

/-- Outcome of the Range branch of `video_handle_stream`: a parse failure
yields 416, a successful parse yields 206 with the computed byte range and
the Content-Length that `http_send_file_response` emits for it. -/
inductive RangeOutcome where
  | partial206 (start e contentLength : Int)
  | invalid416
deriving DecidableEq

/-- Range branch of `video_handle_stream` (request carries a `Range` header
and the target file exists with size `file_size`). -/
def video_handle_stream_range (rangeHeader : List Char) (file_size : Int) :
    RangeOutcome :=
  match parse_range_header rangeHeader file_size with
  | none => RangeOutcome.invalid416
  | some (s, e) => RangeOutcome.partial206 s e (stream_content_length file_size s e)

/-! ## Worker pool sizing (`main`) -/

/-- Worker-count computation in `main` (`src/server/src/main.c`): the value of
`sysconf(_SC_NPROCESSORS_ONLN)`, replaced by 4 when it is zero, then
doubled. -/
def worker_pool_size (ncpu : Nat) : Nat :=
  let w := ncpu
  let w := if w = 0 then 4 else w
  w * 2

/-! ## Minimal JSON field extraction (`utils.c`) -/

/-- Index of the first occurrence of `pat` in a character list (C `strstr`). -/
def findSubIdx (pat : List Char) : List Char → Option Nat
  | [] => if pat.isPrefixOf [] then some 0 else none
  | c :: rest =>
    if pat.isPrefixOf (c :: rest) then some 0
    else (findSubIdx pat rest).map (· + 1)

/-- Digit part of C `strtod` after the optional sign: an integer part and an
optional fraction, at least one digit in total (otherwise no conversion is
performed); the value `sign · (ipart + fpart / 10^k)` is built as a single
exact rational.  Exponent and hexadecimal forms, which no modelled caller
relies on, are not represented, and the rounding C performs to the nearest
binary double is not modelled. -/
def strtodDigits (sgn : Int) (s : List Char) : Option ℚ :=
  if s.takeWhile isDigit = [] ∧
      (match s.drop (s.takeWhile isDigit).length with
        | '.' :: r => r.takeWhile isDigit
        | _ => []) = [] then none
  else
    some (mkRat
      (sgn * (Int.ofNat (digitsVal (s.takeWhile isDigit) *
          10 ^ (match s.drop (s.takeWhile isDigit).length with
            | '.' :: r => r.takeWhile isDigit
            | _ => []).length +
        digitsVal (match s.drop (s.takeWhile isDigit).length with
            | '.' :: r => r.takeWhile isDigit
            | _ => []))))
      (10 ^ (match s.drop (s.takeWhile isDigit).length with
        | '.' :: r => r.takeWhile isDigit
        | _ => []).length))

/-- Model of C `strtod`: leading whitespace, optional sign, decimal digits
with optional fraction; `none` when no conversion is performed (the C caller
detects this through `end == pos`). -/
def strtod_num (s : List Char) : Option ℚ :=
  match s.dropWhile isSpace with
  | '+' :: r => strtodDigits 1 r
  | '-' :: r => strtodDigits (-1) r
  | t => strtodDigits 1 t

/-- `json_get_double` from `utils.c`: locate `"key"`, skip whitespace and
colons, then `strtod`. -/
def json_get_double (json key : List Char) : Option ℚ :=
  match findSubIdx ('"' :: (key ++ ['"'])) json with
  | none => none
  | some i =>
    strtod_num ((json.drop (i + (key.length + 2))).dropWhile
      (fun c => isSpace c || c == ':'))

/-! ## Store rows and the watch-history operations (`db.c`) -/

/-- Row of the `videos` table. -/
structure VideoRow where
  id : Int
  title : String
  filename : String
  description : Option String
  duration_seconds : Int
deriving DecidableEq

/-- Row of the `watch_history` table (the update timestamp plays no role in
the claims and is omitted). -/
structure HistRow where
  user_id : Int
  video_id : Int
  position_seconds : ℚ
deriving DecidableEq

/-- `db_get_video_by_id`: single-row lookup by id. -/
def db_get_video_by_id (videos : List VideoRow) (video_id : Int) :
    Option VideoRow :=
  videos.find? (fun r => r.id == video_id)

/-- `db_update_watch_history`: upsert by `(user_id, video_id)`, last writer
wins. -/
def db_update_watch_history (rows : List HistRow) (u v : Int) (p : ℚ) :
    List HistRow :=
  if rows.any (fun r => r.user_id == u && r.video_id == v) then
    rows.map (fun r =>
      if r.user_id == u && r.video_id == v then { r with position_seconds := p }
      else r)
  else rows ++ [⟨u, v, p⟩]

/-- Stored position for a `(user, video)` pair, as `db_get_watch_history`
reads it back. -/
def hist_position (rows : List HistRow) (u v : Int) : Option ℚ :=
  (rows.find? (fun r => r.user_id == u && r.video_id == v)).map
    (fun r => r.position_seconds)

/-! ## History update endpoint (`history_handle_update`) -/

/-- `history_handle_update` from `src/server/src/history.c`: authentication
check, id parse (400 when `parse_int` yields a non-positive value), video
lookup (404), payload presence (400), `position` extraction with
non-negativity check (400), then the watch-history upsert (200).  Returns the
response status together with the watch-history table after the call. -/
def history_handle_update (authenticated : Bool) (idParam : Option (List Char))
    (videos : List VideoRow) (hist : List HistRow) (user_id : Int)
    (body : List Char) : Nat × List HistRow :=
  if authenticated = false then (401, hist)
  else if parse_int idParam ≤ 0 then (400, hist)
  else
    match db_get_video_by_id videos (parse_int idParam) with
    | none => (404, hist)
    | some _ =>
      if body = [] then (400, hist)
      else
        match json_get_double body ("position".toList) with
        | none => (400, hist)
        | some p =>
          if p < 0 then (400, hist)
          else (200, db_update_watch_history hist user_id (parse_int idParam) p)

/-! ## Claim-side predicates for the `:id` path segment -/

/-- The id shape asserted by the claim: a plain nonempty string of decimal
digits. -/
def plainDigits (s : List Char) : Bool :=
  !s.isEmpty && s.all isDigit

/-- Claimed acceptable id: decimal digits only, value in `[1, INT_MAX]`. -/
def decimal_id_ok (s : List Char) : Bool :=
  plainDigits s && decide (1 ≤ digitsVal s) && decide ((digitsVal s : Int) ≤ INT_MAX)

/-- Amended acceptable id: an optional leading plus sign followed by decimal
digits, value in `[1, INT_MAX]` (this is exactly what `strtol` accepts with
nothing trailing, given that path segments cannot contain whitespace). -/
def signed_decimal_id_ok (s : List Char) : Bool :=
  match s with
  | '+' :: r => decimal_id_ok r
  | _ => decimal_id_ok s

theorem parse_range_valid (header : List Char) (file_size s e : Int)
    (hfs : 1 ≤ file_size)
    (h : parse_range_header header file_size = some (s, e)) :
    0 ≤ s ∧ s ≤ e ∧ e < file_size := by
  unfold parse_range_header at h
  split at h
  · split at h
    · exact absurd h (by simp)
    · next range a afterDash heq =>
      split at h
      · split at h
        · exact absurd h (by simp)
        · simp only [Option.some.injEq, Prod.mk.injEq] at h
          obtain ⟨hs, he⟩ := h
          subst hs he
          split <;> omega
      · split at h
        · exact absurd h (by simp)
        · split at h
          · simp only [Option.some.injEq, Prod.mk.injEq] at h
            obtain ⟨hs, he⟩ := h
            subst hs he
            omega
          · split at h
            · exact absurd h (by simp)
            · simp only [Option.some.injEq, Prod.mk.injEq] at h
              obtain ⟨hs, he⟩ := h
              subst hs he
              split <;> omega
  · exact absurd h (by simp)

theorem stream_content_length_of_valid (file_size s e : Int)
    (h0 : 0 ≤ s) (h1 : s ≤ e) (h2 : e < file_size) :
    stream_content_length file_size s e = e - s + 1 := by
  unfold stream_content_length
  split <;> omega

/-- C2 (amended): for every Range request on a file of size at least one byte,
whenever the stream handler answers 206 the computed range satisfies
`0 ≤ start ≤ end < file_size` and the emitted Content-Length equals
`end − start + 1`.  (On an empty file the suffix form `bytes=-N` still
produces a 206 whose range is `start = 0`, `end = −1`, so the bound
`start ≤ end` requires `file_size ≥ 1`.) -/
theorem stream_206_range_invariant (rangeHeader : List Char)
    (file_size start e cl : Int) (hfs : 1 ≤ file_size)
    (h : video_handle_stream_range rangeHeader file_size =
      RangeOutcome.partial206 start e cl) :
    0 ≤ start ∧ start ≤ e ∧ e < file_size ∧ cl = e - start + 1 := by
  unfold video_handle_stream_range at h
  cases hp : parse_range_header rangeHeader file_size with
  | none => rw [hp] at h; exact absurd h (by simp)
  | some se =>
    obtain ⟨s0, e0⟩ := se
    rw [hp] at h
    simp only [RangeOutcome.partial206.injEq] at h
    obtain ⟨hs, he, hc⟩ := h
    subst hs
    subst he
    obtain ⟨b0, b1, b2⟩ := parse_range_valid rangeHeader file_size _ _ hfs hp
    exact ⟨b0, b1, b2, hc ▸ stream_content_length_of_valid file_size _ _ b0 b1 b2⟩

/-- C2 (counterexample): on an empty file the suffix request `bytes=-5` is
answered 206 with `start = 0`, `end = −1`, violating `start ≤ end`; the claim
asserted the invariant held for empty files as well. -/
theorem stream_206_empty_file_violation :
    video_handle_stream_range "bytes=-5".toList 0 =
      RangeOutcome.partial206 0 (-1) 0 ∧ ¬ ((0 : Int) ≤ -1) := by
  constructor
  · decide
  · decide

/-- C2 (witness): `Range: bytes=0-99` on a 1,000,000-byte file is answered 206
with range 0–99 and Content-Length 100. -/
theorem stream_206_range_invariant_witness :
    (1 : Int) ≤ 1000000 ∧
    video_handle_stream_range "bytes=0-99".toList 1000000 =
      RangeOutcome.partial206 0 99 100 ∧
    (0 ≤ (0 : Int) ∧ (0 : Int) ≤ 99 ∧ (99 : Int) < 1000000 ∧
      (100 : Int) = 99 - 0 + 1) :=
  ⟨by decide, by decide,
    stream_206_range_invariant ("bytes=0-99".toList) 1000000 0 99 100
      (by decide) (by decide)⟩

/-- C4 (counterexample): with one online CPU the pool is created with 2
workers, not `max(8, 2·1) = 8`; the code never applies a minimum of 8. -/
theorem worker_pool_size_one_cpu :
    worker_pool_size 1 = 2 ∧ worker_pool_size 1 ≠ max 8 (2 * 1) := by
  constructor
  · decide
  · decide

/-- C4 (amended): for every online CPU count `n ≥ 1` reported at startup the
worker pool is created with exactly `2·n` workers (the fallback to 8 workers
happens only when the reported count is 0, via the substitute value 4). -/
theorem worker_pool_size_doubles_cpus (n : Nat) (h : 1 ≤ n) :
    worker_pool_size n = 2 * n := by
  unfold worker_pool_size
  simp only []
  have hn : ¬ (n = 0) := by omega
  simp [hn, Nat.mul_comm]

/-- C4 (witness): with 3 online CPUs the pool has 6 workers. -/
theorem worker_pool_size_doubles_cpus_witness :
    1 ≤ 3 ∧ worker_pool_size 3 = 2 * 3 :=
  ⟨by decide, worker_pool_size_doubles_cpus 3 (by decide)⟩

/-! ## C1: completion normalization and the history update -/

theorem hist_position_update (rows : List HistRow) (u v : Int) (p : ℚ) :
    hist_position (db_update_watch_history rows u v p) u v = some p := by
  unfold db_update_watch_history hist_position
  split
  · next hany =>
    induction rows with
    | nil => simp at hany
    | cons r rest ih =>
      by_cases hr : (r.user_id == u && r.video_id == v) = true
      · simp [List.find?, hr]
      · have hrest : rest.any (fun r => r.user_id == u && r.video_id == v) = true := by
          simp [List.any_cons, hr] at hany
          simpa using hany
        simp only [List.map_cons, List.find?]
        rw [if_neg hr]
        simp only [hr, Bool.false_eq_true, if_false]
        exact ih hrest
  · next hany =>
    induction rows with
    | nil => simp [List.find?]
    | cons r rest ih =>
      have hr : (r.user_id == u && r.video_id == v) = false := by
        cases hb : (r.user_id == u && r.video_id == v)
        · rfl
        · exact absurd (by simp [List.any_cons, hb]) hany
      have hrest : ¬ rest.any (fun r => r.user_id == u && r.video_id == v) = true := by
        intro hc
        exact hany (by simp [List.any_cons, hc])
      simp only [List.cons_append, List.find?, hr]
      exact ih hrest

/-- Concrete video catalog used by counterexamples and witnesses: video 7 with
a known duration of 600 seconds. -/
def sampleVideos : List VideoRow :=
  [⟨7, "movie", "movie.mp4", none, 600⟩]

/-- C1 (counterexample): video 7 has the known duration 600; the request body
carries position 598 ≥ 600 − 5, yet the handler stores 598 verbatim rather
than the claimed completion value 0. -/
theorem history_update_no_completion_normalization :
    history_handle_update true (some ("7".toList)) sampleVideos [] 1
        ("\x7b\"position\":598\x7d".toList)
      = (200, [⟨1, 7, 598⟩]) ∧
    (600 : ℚ) - 5 ≤ 598 ∧ (598 : ℚ) ≠ 0 := by
  refine ⟨by decide, by norm_num, by norm_num⟩

/-- C1 (amended): the history-update handler stores the accepted position
verbatim; no completion normalization is applied on the server (the
`position ≥ duration − 5 ⇒ 0` rule lives in the client player script, which
rewrites the position before the POST). -/
theorem history_update_stores_position_verbatim
    (idParam : Option (List Char)) (videos : List VideoRow)
    (hist : List HistRow) (user_id : Int) (body : List Char) (v : VideoRow)
    (p : ℚ)
    (hid : 0 < parse_int idParam)
    (hvid : db_get_video_by_id videos (parse_int idParam) = some v)
    (hbody : ¬ body = [])
    (hp : json_get_double body ("position".toList) = some p)
    (hpos : 0 ≤ p) :
    history_handle_update true idParam videos hist user_id body
      = (200, db_update_watch_history hist user_id (parse_int idParam) p) ∧
    hist_position
      (history_handle_update true idParam videos hist user_id body).2
      user_id (parse_int idParam) = some p := by
  have hmain : history_handle_update true idParam videos hist user_id body
      = (200, db_update_watch_history hist user_id (parse_int idParam) p) := by
    unfold history_handle_update
    rw [if_neg (show ¬ (true = false) by simp),
      if_neg (show ¬ parse_int idParam ≤ 0 by omega), hvid]
    dsimp only
    rw [if_neg hbody, hp]
    dsimp only
    rw [if_neg (not_lt.mpr hpos)]
  exact ⟨hmain, by rw [hmain]; exact hist_position_update hist user_id _ p⟩

/-- C1 (witness): an authenticated update of video 7 with position 300 (below
the completion window) succeeds and stores exactly 300. -/
theorem history_update_stores_position_verbatim_witness :
    history_handle_update true (some ("7".toList)) sampleVideos [] 1
        ("\x7b\"position\":300\x7d".toList)
      = (200, db_update_watch_history [] 1 (parse_int (some ("7".toList))) 300) ∧
    hist_position
      (history_handle_update true (some ("7".toList)) sampleVideos [] 1
        ("\x7b\"position\":300\x7d".toList)).2
      1 (parse_int (some ("7".toList))) = some 300 :=
  history_update_stores_position_verbatim (some ("7".toList)) sampleVideos []
    1 ("\x7b\"position\":300\x7d".toList) ⟨7, "movie", "movie.mp4", none, 600⟩
    300 (by decide) (by decide) (by decide) (by decide) (by decide)

/-! ## C10: validation of the `:id` path segment -/

theorem full_digits (r ds : List Char) (heq : r.takeWhile isDigit = ds)
    (hdrop : r.drop ds.length = []) : r = ds ∧ r.all isDigit = true := by
  have hpre : ds <+: r := heq ▸ List.takeWhile_prefix isDigit
  have hlen : r.length ≤ ds.length := by
    have := List.drop_eq_nil_iff.mp hdrop
    omega
  have hr : ds = r := hpre.eq_of_length (le_antisymm hpre.length_le hlen)
  subst hr
  refine ⟨rfl, List.all_eq_true.mpr ?_⟩
  intro a ha
  exact List.mem_takeWhile_imp (heq ▸ ha)

theorem parse_int_pos_signed_ok (s : List Char)
    (hnws : s.all (fun c => !isSpace c) = true)
    (hpos : 0 < parse_int (some s)) :
    signed_decimal_id_ok s = true := by
  have hdw : s.dropWhile isSpace = s := by
    cases s with
    | nil => rfl
    | cons c cs =>
      have hc : isSpace c = false := by
        have := (List.all_eq_true.mp hnws) c (by simp)
        simpa using this
      simp [List.dropWhile_cons, hc]
  simp only [parse_int] at hpos
  by_cases h1 : (strtol s).2 ≠ []
  · rw [if_pos h1] at hpos; omega
  · rw [if_neg h1] at hpos
    by_cases h2 : (strtol s).1 < 0 ∨ (strtol s).1 > INT_MAX
    · rw [if_pos h2] at hpos; omega
    · rw [if_neg h2] at hpos
      push_neg at h1 h2
      rcases hstrtol : strtol s with ⟨v, rest⟩
      rw [hstrtol] at h1 h2 hpos
      simp only at h1 h2 hpos
      unfold strtol at hstrtol
      rw [hdw] at hstrtol
      split at hstrtol
      · next r =>
        split at hstrtol
        · cases hstrtol
          exact absurd h1 (List.cons_ne_nil _ _)
        · next hds =>
          cases hstrtol
          obtain ⟨hr, hall⟩ := full_digits r (r.takeWhile isDigit) rfl h1
          rw [← hr] at hpos h2
          show decimal_id_ok r = true
          simp only [decimal_id_ok, plainDigits, Bool.and_eq_true,
            decide_eq_true_eq, Bool.not_eq_true']
          refine ⟨⟨⟨?_, hall⟩, ?_⟩, ?_⟩
          · cases r with
            | nil => exact absurd rfl hds
            | cons a l => rfl
          · omega
          · exact h2.2
      · next r =>
        split at hstrtol
        · cases hstrtol
          exact absurd h1 (List.cons_ne_nil _ _)
        · cases hstrtol
          omega
      · next hplus hminus =>
        split at hstrtol
        · cases hstrtol
          omega
        · next hds =>
          cases hstrtol
          obtain ⟨hr, hall⟩ := full_digits s (s.takeWhile isDigit) rfl h1
          rw [← hr] at hpos h2
          unfold signed_decimal_id_ok
          split
          · exact absurd rfl (hplus _)
          · simp only [decimal_id_ok, plainDigits, Bool.and_eq_true,
              decide_eq_true_eq, Bool.not_eq_true']
            refine ⟨⟨⟨?_, hall⟩, ?_⟩, ?_⟩
            · cases s with
              | nil => exact absurd rfl hds
              | cons a l => rfl
            · omega
            · exact h2.2

/-- C10 (counterexample): the id segment `+5` is not a plain decimal integer,
yet `strtol` consumes the sign and the handler accepts it (responding 200 on
an otherwise valid request for the existing video 5) instead of the claimed
400. -/
theorem id_param_plus_sign_accepted :
    (history_handle_update true (some ("+5".toList))
        [⟨5, "clip", "clip.mp4", none, 0⟩] [] 1
        ("\x7b\"position\":1\x7d".toList)).1 = 200 ∧
    decimal_id_ok ("+5".toList) = false :=
  ⟨by decide, by decide⟩

/-- C10 (amended): the handler responds 400 unless the `:id` segment, after
an optional leading plus sign, is a decimal integer in `[1, INT_MAX]` with no
trailing characters; in particular `0` is rejected with 400 (path segments
never contain whitespace, which the hypothesis records). -/
theorem id_gate_rejects_non_decimal (s : List Char) (videos : List VideoRow)
    (hist : List HistRow) (user_id : Int) (body : List Char)
    (hnws : s.all (fun c => !isSpace c) = true)
    (hbad : signed_decimal_id_ok s = false) :
    (history_handle_update true (some s) videos hist user_id body).1 = 400 := by
  have hle : parse_int (some s) ≤ 0 := by
    by_contra hc
    push_neg at hc
    rw [parse_int_pos_signed_ok s hnws hc] at hbad
    simp at hbad
  unfold history_handle_update
  rw [if_neg (show ¬ (true = false) by simp), if_pos hle]

/-- C10 (witness): the id segment `0` is rejected with 400. -/
theorem id_gate_rejects_non_decimal_witness :
    (history_handle_update true (some ("0".toList)) [] [] 1 []).1 = 400 :=
  id_gate_rejects_non_decimal ("0".toList) [] [] 1 [] (by decide) (by decide)

/-! ## C8: base64url encoding and session-token generation (`utils.c`,
`auth.c`) -/

/-- Encoding table of `base64url_encode`. -/
def b64table : List Char :=
  ['A', 'B', 'C', 'D', 'E', 'F', 'G', 'H', 'I', 'J', 'K', 'L', 'M',
   'N', 'O', 'P', 'Q', 'R', 'S', 'T', 'U', 'V', 'W', 'X', 'Y', 'Z',
   'a', 'b', 'c', 'd', 'e', 'f', 'g', 'h', 'i', 'j', 'k', 'l', 'm',
   'n', 'o', 'p', 'q', 'r', 's', 't', 'u', 'v', 'w', 'x', 'y', 'z',
   '0', '1', '2', '3', '4', '5', '6', '7', '8', '9', '-', '_']

/-- Table lookup; every caller below masks the index with `&&& 63`, which is
in bounds, so the default character is never produced. -/
def b64char (n : Nat) : Char :=
  b64table.getD n 'A'

/-- The 3-byte-chunk loop of `base64url_encode`: each chunk becomes four
output characters, the third and fourth replaced by `'='` when the chunk has
fewer than two or three input bytes. -/
def encodeChunks : List Nat → List Char
  | [] => []
  | [a] =>
    [b64char (((a <<< 16) >>> 18) &&& 63), b64char (((a <<< 16) >>> 12) &&& 63),
     '=', '=']
  | [a, b] =>
    [b64char ((((a <<< 16) ||| (b <<< 8)) >>> 18) &&& 63),
     b64char ((((a <<< 16) ||| (b <<< 8)) >>> 12) &&& 63),
     b64char ((((a <<< 16) ||| (b <<< 8)) >>> 6) &&& 63), '=']
  | a :: b :: c :: rest =>
    b64char ((((a <<< 16) ||| (b <<< 8) ||| c) >>> 18) &&& 63) ::
    b64char ((((a <<< 16) ||| (b <<< 8) ||| c) >>> 12) &&& 63) ::
    b64char ((((a <<< 16) ||| (b <<< 8) ||| c) >>> 6) &&& 63) ::
    b64char (((a <<< 16) ||| (b <<< 8) ||| c) &&& 63) :: encodeChunks rest

/-- The padding-stripping loop at the end of `base64url_encode`: remove every
trailing `'='`. -/
def stripTrailingEq (l : List Char) : List Char :=
  (l.reverse.dropWhile (fun c => c == '=')).reverse

/-- `base64url_encode` from `utils.c` (byte values are `unsigned char`). -/
def base64url_encode (input : List Nat) : List Char :=
  stripTrailingEq (encodeChunks input)

/-- `auth_generate_session_token`: base64url-encode 32 random bytes (the
destination buffer of at least 48 bytes always fits the 43-character
result). -/
def auth_generate_session_token (randomBytes : List Nat) : List Char :=
  base64url_encode randomBytes

theorem b64char_ne_eq (n : Nat) : b64char (n &&& 63) ≠ '=' := by
  have hlt : n &&& 63 < 64 := Nat.lt_succ_of_le Nat.and_le_right
  have hall : ∀ m : Fin 64, b64table.getD m.val 'A' ≠ '=' := by decide
  exact hall ⟨n &&& 63, hlt⟩

theorem dropWhile_append_of_ne (p : Char → Bool) (l1 l2 : List Char)
    (h : l1.dropWhile p ≠ []) :
    (l1 ++ l2).dropWhile p = l1.dropWhile p ++ l2 := by
  induction l1 with
  | nil => exact absurd rfl h
  | cons a t ih =>
    by_cases ha : p a = true
    · rw [List.dropWhile_cons_of_pos ha] at h ⊢
      rw [List.cons_append, List.dropWhile_cons_of_pos ha]
      exact ih h
    · have ha2 : p a = false := by
        cases hb : p a
        · rfl
        · exact absurd hb ha
      rw [List.dropWhile_cons_of_neg (by simp [ha2])] at h ⊢
      rw [List.cons_append, List.dropWhile_cons_of_neg (by simp [ha2])]

theorem stripTrailingEq_append (xs ys : List Char)
    (h : stripTrailingEq ys ≠ []) :
    stripTrailingEq (xs ++ ys) = xs ++ stripTrailingEq ys := by
  unfold stripTrailingEq at h ⊢
  have h2 : ys.reverse.dropWhile (fun c => c == '=') ≠ [] := by
    intro hc
    rw [hc] at h
    simp at h
  rw [List.reverse_append, dropWhile_append_of_ne _ _ _ h2,
    List.reverse_append, List.reverse_reverse]

theorem strip_encode_len_mod2 :
    ∀ l : List Nat, l.length % 3 = 2 →
      (stripTrailingEq (encodeChunks l)).length = (l.length / 3) * 4 + 3
  | [] => by intro h; simp at h
  | [a] => by intro h; simp at h
  | [a, b] => by
    intro _
    have h3 : ((b64char ((((a <<< 16) ||| (b <<< 8)) >>> 6) &&& 63)) == '=')
        = false := by
      exact beq_eq_false_iff_ne.mpr (b64char_ne_eq _)
    simp [encodeChunks, stripTrailingEq, List.dropWhile, h3]
  | a :: b :: c :: rest => by
    intro h
    have hr : rest.length % 3 = 2 := by
      simp only [List.length_cons] at h
      omega
    have ih := strip_encode_len_mod2 rest hr
    have hne : stripTrailingEq (encodeChunks rest) ≠ [] := by
      intro hc
      rw [hc] at ih
      simp at ih
    have hsplit : encodeChunks (a :: b :: c :: rest) =
        [b64char ((((a <<< 16) ||| (b <<< 8) ||| c) >>> 18) &&& 63),
         b64char ((((a <<< 16) ||| (b <<< 8) ||| c) >>> 12) &&& 63),
         b64char ((((a <<< 16) ||| (b <<< 8) ||| c) >>> 6) &&& 63),
         b64char (((a <<< 16) ||| (b <<< 8) ||| c) &&& 63)] ++
          encodeChunks rest := rfl
    rw [hsplit, stripTrailingEq_append _ _ hne, List.length_append, ih]
    simp only [List.length_cons, List.length_nil]
    omega

/-- C8: every session token produced by `auth_generate_session_token` from 32
random bytes is the padding-stripped base64url encoding of those bytes and
has length exactly 43 (44 encoded characters minus the single stripped
padding character), hence at least 43. -/
theorem session_token_length (bytes : List Nat) (h : bytes.length = 32) :
    (auth_generate_session_token bytes).length = 43 := by
  unfold auth_generate_session_token base64url_encode
  have hmod : bytes.length % 3 = 2 := by rw [h]
  rw [strip_encode_len_mod2 bytes hmod, h]

/-- C8 (witness): a concrete 32-byte input yields a 43-character token. -/
theorem session_token_length_witness :
    (List.replicate 32 0).length = 32 ∧
    (auth_generate_session_token (List.replicate 32 0)).length = 43 :=
  ⟨by decide, session_token_length (List.replicate 32 0) (by decide)⟩

/-! ## Catalog engine: video store, upsert, prune, directory sync
(`db.c` and the video module) -/

/-- The video store: rows plus the next rowid SQLite would assign. -/
structure VStore where
  nextId : Int
  rows : List VideoRow
deriving DecidableEq

/-- `db_upsert_video`: `INSERT ... ON CONFLICT(filename) DO UPDATE`; an
existing row keeps its id and has title, description and duration replaced,
otherwise a fresh row is appended. -/
def db_upsert_video (st : VStore) (title filename : String)
    (description : Option String) (duration : Int) : VStore :=
  if st.rows.any (fun r => r.filename == filename) then
    { st with rows := st.rows.map (fun r =>
        if r.filename == filename then
          { r with
            title := title
            description := description
            duration_seconds := duration }
        else r) }
  else
    { nextId := st.nextId + 1,
      rows := st.rows ++
        [⟨st.nextId, title, filename, description, duration⟩] }

/-- `db_prune_missing_videos`: load the live filenames into a temporary table
(skipping NULL/empty names) and delete every video whose filename is not
among them. -/
def db_prune_missing_videos (st : VStore) (filenames : List String) : VStore :=
  { st with rows := st.rows.filter (fun r =>
      (filenames.filter (fun n => n != "")).contains r.filename) }

/-- Kind of a directory entry as `readdir` reports it; `sync_media_directory`
never inspects it. -/
inductive EntryKind where
  | regular
  | directory
  | other
deriving DecidableEq

/-- One `readdir` result. -/
structure DirEntry where
  name : String
  kind : EntryKind
deriving DecidableEq

/-- ASCII lowercasing as `strcasecmp` compares. -/
def asciiLower (c : Char) : Char :=
  if 'A' ≤ c && c ≤ 'Z' then Char.ofNat (c.toNat + 32) else c

/-- Suffix of a name starting at the last occurrence of `c` (C `strrchr`),
the occurrence included. -/
def suffixFromLast (c : Char) (l : List Char) : Option (List Char) :=
  match l.reverse.dropWhile (fun x => x != c) with
  | [] => none
  | _ :: _ => some (c :: (l.reverse.takeWhile (fun x => x != c)).reverse)

/-- `has_mp4_extension` from the video module: the suffix from the last dot
compares case-insensitively equal to `.mp4`. -/
def has_mp4_extension (name : String) : Bool :=
  match suffixFromLast '.' name.toList with
  | none => false
  | some ext => ext.map asciiLower == (".mp4".toList.map asciiLower)

/-- `make_title`: basename, truncated to 255 characters, final dot suffix
removed, underscores and hyphens replaced by spaces; empty results fall back
to the raw filename. -/
def make_title (filename : String) : String :=
  match
    (((match (((filename.toList.reverse.takeWhile
          (fun x => x != '/')).reverse).take 255).reverse.dropWhile
            (fun x => x != '.') with
      | [] => (((filename.toList.reverse.takeWhile
          (fun x => x != '/')).reverse).take 255)
      | _ :: cut => cut.reverse)).map
        (fun c => if c == '_' || c == '-' then ' ' else c)) with
  | [] => filename
  | t => t.asString

/-- Filter applied by the `sync_media_directory` scan loop: skip entries whose
name starts with a dot and entries without a case-insensitive `.mp4`
extension.  The entry kind is not examined. -/
def media_scan_filter (e : DirEntry) : Bool :=
  !(e.name.toList.head? == some '.') && has_mp4_extension e.name

/-- The claimed scan filter: additionally requires a regular file. -/
def regular_mp4_filter (e : DirEntry) : Bool :=
  !(e.name.toList.head? == some '.') && (e.kind == EntryKind.regular) &&
    has_mp4_extension e.name

/-- `sync_media_directory`: upsert a row for every entry passing the scan
filter (title derived from the name, no description, duration 0), then prune
rows whose filename was not observed.  The store operations are modelled as
total; the C function returns 0 exactly on the runs modelled here. -/
def sync_media_directory (entries : List DirEntry) (st : VStore) : VStore :=
  db_prune_missing_videos
    ((entries.filter media_scan_filter).foldl
      (fun acc e => db_upsert_video acc (make_title e.name) e.name none 0) st)
    ((entries.filter media_scan_filter).map (fun e => e.name))

/-- Number of store rows carrying a given filename. -/
def video_filename_count (st : VStore) (f : String) : Nat :=
  st.rows.countP (fun r => r.filename == f)

/-- Store well-formedness: the `filename` column is unique, as the schema's
UNIQUE constraint guarantees. -/
def store_filenames_nodup (st : VStore) : Prop :=
  (st.rows.map (fun r => r.filename)).Nodup

/-- C7: `prune_missing_videos` is idempotent for a fixed list of live
filenames: pruning twice leaves the video table exactly as pruning once. -/
theorem prune_missing_videos_idempotent (st : VStore)
    (filenames : List String) :
    db_prune_missing_videos (db_prune_missing_videos st filenames) filenames =
      db_prune_missing_videos st filenames := by
  unfold db_prune_missing_videos
  simp [List.filter_filter]

theorem upd_filename (r : VideoRow) (t f : String) (d : Option String) (dur : Int) :
    ((if r.filename == f then
        { r with title := t, description := d, duration_seconds := dur }
      else r) : VideoRow).filename = r.filename := by
  split <;> rfl

theorem count_map_upd (rows : List VideoRow) (t f : String) (d : Option String)
    (dur : Int) (g : String) :
    (rows.map (fun r =>
        if r.filename == f then
          { r with title := t, description := d, duration_seconds := dur }
        else r)).countP (fun r => r.filename == g) =
      rows.countP (fun r => r.filename == g) := by
  rw [List.countP_map]
  apply List.countP_congr
  intro r _
  simp only [Function.comp_apply]
  rw [upd_filename]

theorem filename_count_upsert (st : VStore) (t f : String) (d : Option String)
    (dur : Int) (g : String) (hnd : store_filenames_nodup st) :
    video_filename_count (db_upsert_video st t f d dur) g =
      if g = f then 1 else video_filename_count st g := by
  unfold db_upsert_video video_filename_count
  split
  · next hany =>
    rw [count_map_upd]
    by_cases hg : g = f
    · subst hg
      rw [if_pos rfl]
      have hle : st.rows.countP (fun r => r.filename == g) ≤ 1 := by
        have h1 := List.nodup_iff_count_le_one.mp hnd g
        rw [List.count_eq_countP, List.countP_map] at h1
        exact le_trans (le_of_eq (List.countP_congr (by intro r _; simp [Function.comp]))) h1
      have hge : 0 < st.rows.countP (fun r => r.filename == g) := by
        obtain ⟨r, hmem, hr⟩ := List.any_eq_true.mp hany
        exact List.countP_pos_iff.mpr ⟨r, hmem, hr⟩
      omega
    · rw [if_neg hg]
  · next hany =>
    rw [List.countP_append]
    by_cases hg : g = f
    · subst hg
      rw [if_pos rfl]
      have hanyf : st.rows.any (fun r => r.filename == g) = false := by
        cases hb : st.rows.any (fun r => r.filename == g)
        · rfl
        · exact absurd hb hany
      have h0 : st.rows.countP (fun r => r.filename == g) = 0 := by
        rw [List.countP_eq_zero]
        intro r hmem
        simpa using List.any_eq_false.mp hanyf r hmem
      rw [h0]
      simp
    · rw [if_neg hg]
      have h1 : (([⟨st.nextId, t, f, d, dur⟩] : List VideoRow).countP
          (fun r => r.filename == g)) = 0 := by
        simp [List.countP_cons]
        exact fun hc => absurd hc.symm hg
      rw [h1]
      simp

theorem upsert_nodup (st : VStore) (t f : String) (d : Option String)
    (dur : Int) (hnd : store_filenames_nodup st) :
    store_filenames_nodup (db_upsert_video st t f d dur) := by
  unfold store_filenames_nodup at hnd ⊢
  unfold db_upsert_video
  split
  · next hany =>
    have hmap : (st.rows.map (fun r =>
        if r.filename == f then
          { r with title := t, description := d, duration_seconds := dur }
        else r)).map (fun r => r.filename) = st.rows.map (fun r => r.filename) := by
      rw [List.map_map]
      apply List.map_congr_left
      intro r _
      simp only [Function.comp_apply]
      rw [upd_filename]
    rw [hmap]
    exact hnd
  · next hany =>
    have hanyf : st.rows.any (fun r => r.filename == f) = false := by
      cases hb : st.rows.any (fun r => r.filename == f)
      · rfl
      · exact absurd hb hany
    rw [List.map_append]
    refine List.Nodup.append hnd (by simp) ?_
    intro a ha hb
    simp only [List.map_cons, List.map_nil, List.mem_singleton] at hb
    subst hb
    obtain ⟨r, hmem, hr⟩ := List.mem_map.mp ha
    have := List.any_eq_false.mp hanyf r hmem
    simp [hr] at this

theorem fold_upsert_count (es : List DirEntry) (st : VStore)
    (hnd : store_filenames_nodup st) :
    store_filenames_nodup (es.foldl
      (fun acc e => db_upsert_video acc (make_title e.name) e.name none 0) st) ∧
    ∀ g : String,
      video_filename_count (es.foldl
          (fun acc e => db_upsert_video acc (make_title e.name) e.name none 0)
          st) g =
        if g ∈ es.map (fun e => e.name) then 1
        else video_filename_count st g := by
  induction es generalizing st with
  | nil => exact ⟨hnd, by intro g; simp⟩
  | cons e rest ih =>
    simp only [List.foldl_cons]
    obtain ⟨ihnd, ihc⟩ :=
      ih (db_upsert_video st (make_title e.name) e.name none 0)
        (upsert_nodup st (make_title e.name) e.name none 0 hnd)
    refine ⟨ihnd, ?_⟩
    intro g
    rw [ihc g]
    by_cases hg : g ∈ rest.map (fun e => e.name)
    · simp [hg]
    · rw [if_neg hg, filename_count_upsert st (make_title e.name) e.name none 0 g hnd]
      by_cases hge : g = e.name
      · simp [hge]
      · simp [List.map_cons, hge, hg]

theorem prune_count (st : VStore) (names : List String) (g : String) :
    video_filename_count (db_prune_missing_videos st names) g =
      if g ∈ names.filter (fun n => n != "") then video_filename_count st g
      else 0 := by
  unfold db_prune_missing_videos video_filename_count
  rw [List.countP_filter]
  by_cases hg : g ∈ names.filter (fun n => n != "")
  · rw [if_pos hg]
    apply List.countP_congr
    intro r _
    by_cases hr : r.filename = g
    · rw [hr]
      simp only [beq_self_eq_true, Bool.true_and]
      constructor
      · intro _; trivial
      · intro _; simp [hg]
    · simp [hr]
  · rw [if_neg hg]
    rw [List.countP_eq_zero]
    intro r hmem hp
    simp only [Bool.and_eq_true, beq_iff_eq] at hp
    obtain ⟨hr, hcont⟩ := hp
    rw [hr] at hcont
    exact hg (by simpa using hcont)

theorem mp4_name_ne_empty (f : String) (h : has_mp4_extension f = true) :
    f ≠ "" := by
  intro hc
  subst hc
  exact absurd h (by decide)

/-- C3 (amended): after a successful `sync_media_directory` run (store
operations modelled as total), the multiset of stored filenames is exactly
the set of names of non-hidden directory entries with a case-insensitive
`.mp4` extension — of any entry kind, since the scan never checks that an
entry is a regular file: every such observed name has exactly one row and no
other filename remains. -/
theorem sync_media_directory_row_counts (entries : List DirEntry) (st : VStore)
    (hnd : store_filenames_nodup st) (f : String) :
    video_filename_count (sync_media_directory entries st) f =
      if f ∈ (entries.filter media_scan_filter).map (fun e => e.name) then 1
      else 0 := by
  unfold sync_media_directory
  rw [prune_count]
  obtain ⟨fnd, fcount⟩ := fold_upsert_count (entries.filter media_scan_filter) st hnd
  by_cases hf : f ∈ (entries.filter media_scan_filter).map (fun e => e.name)
  · have hfe : f ≠ "" := by
      obtain ⟨e, he, hname⟩ := List.mem_map.mp hf
      have hfil := (List.mem_filter.mp he).2
      have hmp4 : has_mp4_extension e.name = true := by
        simp only [media_scan_filter, Bool.and_eq_true] at hfil
        exact hfil.2
      rw [← hname]
      exact mp4_name_ne_empty e.name hmp4
    have hmemlive : f ∈ ((entries.filter media_scan_filter).map
        (fun e => e.name)).filter (fun n => n != "") :=
      List.mem_filter.mpr ⟨hf, by simp [hfe]⟩
    rw [if_pos hmemlive, fcount f, if_pos hf, if_pos hf]
  · have hnotlive : f ∉ ((entries.filter media_scan_filter).map
        (fun e => e.name)).filter (fun n => n != "") := by
      intro hc
      exact hf (List.mem_filter.mp hc).1
    rw [if_neg hnotlive, if_neg hf]

/-- C3 (counterexample): a subdirectory named `clips.mp4` inside the media
directory is synchronized into the video table although it is not a regular
file, so the stored set differs from the claimed set of non-hidden regular
`.mp4` files (which is empty here). -/
theorem sync_media_directory_includes_non_regular :
    ((sync_media_directory [⟨"clips.mp4", EntryKind.directory⟩]
        ⟨1, []⟩).rows.map (fun r => r.filename)) = ["clips.mp4"] ∧
    ([⟨"clips.mp4", EntryKind.directory⟩] : List DirEntry).filter
      regular_mp4_filter = [] :=
  ⟨by decide, by decide⟩

/-- C3 (witness): syncing a store that starts empty against a directory
holding the single regular file `a_b.mp4` leaves exactly one row for it. -/
theorem sync_media_directory_row_counts_witness :
    store_filenames_nodup ⟨1, []⟩ ∧
    video_filename_count
        (sync_media_directory [⟨"a_b.mp4", EntryKind.regular⟩] ⟨1, []⟩)
        "a_b.mp4" =
      (if "a_b.mp4" ∈ (([⟨"a_b.mp4", EntryKind.regular⟩] :
          List DirEntry).filter media_scan_filter).map (fun e => e.name)
       then 1 else 0) :=
  ⟨by simp [store_filenames_nodup],
    sync_media_directory_row_counts [⟨"a_b.mp4", EntryKind.regular⟩] ⟨1, []⟩
      (by simp [store_filenames_nodup]) "a_b.mp4"⟩

/-! ## C5: sessions, cookie parsing and request authentication (`auth.c`,
`db.c`) -/

/-- Row of the `sessions` table. -/
structure Session where
  token : String
  user_id : Int
  expires_at : Int
deriving DecidableEq

/-- `db_get_session`: look a token up, returning user id and expiry. -/
def db_get_session (sessions : List Session) (token : String) :
    Option (Int × Int) :=
  (sessions.find? (fun s => s.token == token)).map
    (fun s => (s.user_id, s.expires_at))

/-- `db_delete_session`: delete the row carrying the token. -/
def db_delete_session (sessions : List Session) (token : String) :
    List Session :=
  sessions.filter (fun s => s.token != token)

/-- `db_get_username_by_id`. -/
def db_get_username_by_id (users : List (Int × String)) (user_id : Int) :
    Option String :=
  (users.find? (fun u => u.1 == user_id)).map (fun u => u.2)

/-- Split at the first occurrence of `ch` (C `strchr`): the part before it
and the part after it, or `none` when absent. -/
def splitAtChar (ch : Char) (l : List Char) : Option (List Char × List Char) :=
  if (l.takeWhile (fun c => c != ch)).length = l.length then none
  else some (l.takeWhile (fun c => c != ch),
    l.drop ((l.takeWhile (fun c => c != ch)).length + 1))

/-- Trailing-whitespace trim done on an extracted cookie value. -/
def trimTrailingWS (l : List Char) : List Char :=
  (l.reverse.dropWhile isSpace).reverse

/-- Loop body of `parse_cookie` in `auth.c`: skip separators, find the next
`'='`, compare the name, extract the value up to `';'` (truncated to the
127-byte buffer and right-trimmed) on a match, otherwise continue after the
`';'` or fail at end of string.  The fuel argument only bounds the recursion;
each iteration strictly shrinks the remaining header. -/
def parse_cookie_go (name : List Char) : Nat → List Char → Option (List Char)
  | 0, _ => none
  | fuel + 1, p =>
    match splitAtChar '=' (p.dropWhile (fun c => c == ' ' || c == ';')) with
    | none => none
    | some (pre, post) =>
      if pre == name then
        some (trimTrailingWS ((match splitAtChar ';' post with
          | none => post
          | some (v, _) => v).take 127))
      else
        match splitAtChar ';' post with
        | none => none
        | some (_, rest) => parse_cookie_go name fuel rest

/-- `parse_cookie` from `auth.c`. -/
def parse_cookie (header name : List Char) : Option (List Char) :=
  parse_cookie_go name (header.length + 1) header

/-- Authentication outcome recorded in the request context, together with the
session table after the call (`load_session` deletes expired rows). -/
structure AuthResult where
  authenticated : Bool
  user_id : Int
  username : String
  sessions : List Session
deriving DecidableEq

/-- `load_session` from `auth.c`: look the token up; an expiry at or before
`now` deletes the session and fails, otherwise the user id and username are
bound into the context. -/
def load_session (sessions : List Session) (users : List (Int × String))
    (token : String) (now : Int) : AuthResult :=
  match db_get_session sessions token with
  | none => ⟨false, 0, "", sessions⟩
  | some (uid, expires) =>
    if expires ≤ now then ⟨false, 0, "", db_delete_session sessions token⟩
    else ⟨true, uid, (db_get_username_by_id users uid).getD "", sessions⟩

/-- `auth_authenticate_request`: extract the `ott_session` cookie and load
the session. -/
def auth_authenticate_request (sessions : List Session)
    (users : List (Int × String)) (cookieHeader : Option (List Char))
    (now : Int) : AuthResult :=
  match cookieHeader with
  | none => ⟨false, 0, "", sessions⟩
  | some h =>
    match parse_cookie h ("ott_session".toList) with
    | none => ⟨false, 0, "", sessions⟩
    | some tok => load_session sessions users tok.asString now

/-- C5: a request is marked authenticated only if the session found under its
`ott_session` cookie expires strictly after `now`; when the looked-up session
is expired it is deleted from the store and the request stays
unauthenticated. -/
theorem authenticate_request_expiry (sessions : List Session)
    (users : List (Int × String)) (header : Option (List Char)) (now : Int) :
    ((auth_authenticate_request sessions users header now).authenticated =
        true →
      ∃ h tok uid expires, header = some h ∧
        parse_cookie h ("ott_session".toList) = some tok ∧
        db_get_session sessions tok.asString = some (uid, expires) ∧
        now < expires) ∧
    (∀ h tok uid expires, header = some h →
      parse_cookie h ("ott_session".toList) = some tok →
      db_get_session sessions tok.asString = some (uid, expires) →
      expires ≤ now →
      (auth_authenticate_request sessions users header now).authenticated =
          false ∧
      (auth_authenticate_request sessions users header now).sessions =
        db_delete_session sessions tok.asString) := by
  constructor
  · intro hauth
    cases header with
    | none =>
      simp only [auth_authenticate_request] at hauth
      exact absurd hauth (by simp)
    | some h =>
      simp only [auth_authenticate_request] at hauth
      cases hpc : parse_cookie h ("ott_session".toList) with
      | none => rw [hpc] at hauth; simp at hauth
      | some tok =>
        rw [hpc] at hauth
        simp only [load_session] at hauth
        cases hgs : db_get_session sessions tok.asString with
        | none => rw [hgs] at hauth; simp at hauth
        | some pr =>
          obtain ⟨uid, expires⟩ := pr
          rw [hgs] at hauth
          dsimp only at hauth
          by_cases hexp : expires ≤ now
          · rw [if_pos hexp] at hauth
            simp at hauth
          · exact ⟨h, tok, uid, expires, rfl, hpc, hgs, by omega⟩
  · intro h tok uid expires hh hpc hgs hexp
    subst hh
    simp only [auth_authenticate_request, load_session]
    rw [hpc]
    dsimp only
    rw [hgs]
    dsimp only
    rw [if_pos hexp]
    exact ⟨rfl, rfl⟩

/-- C5 (witness): a session expiring exactly at `now` is treated as expired:
the request stays unauthenticated and the row is removed. -/
theorem authenticate_request_expiry_witness :
    (auth_authenticate_request [⟨"tok", 1, 100⟩] []
        (some ("ott_session=tok".toList)) 100).authenticated = false ∧
    (auth_authenticate_request [⟨"tok", 1, 100⟩] []
        (some ("ott_session=tok".toList)) 100).sessions =
      db_delete_session [⟨"tok", 1, 100⟩] (("tok".toList).asString) :=
  (authenticate_request_expiry [⟨"tok", 1, 100⟩] []
      (some ("ott_session=tok".toList)) 100).2
    ("ott_session=tok".toList) ("tok".toList) 1 100 rfl (by decide)
    (by decide) (by decide)

/-! ## C6: paginated, searched video queries (`db_query_videos`) -/

/-- One step of SQLite `LIKE` matching, ASCII-case-insensitively: `%` matches
any run of characters, `_` exactly one, anything else itself. -/
def likeMatch : List Char → List Char → Bool
  | [], [] => true
  | [], _ :: _ => false
  | '%' :: ps, s =>
    likeMatch ps s ||
      (match s with
       | [] => false
       | _ :: s2 => likeMatch ('%' :: ps) s2)
  | '_' :: ps, s =>
    (match s with
     | [] => false
     | _ :: s2 => likeMatch ps s2)
  | pc :: ps, s =>
    (match s with
     | [] => false
     | sc :: s2 => (asciiLower pc == asciiLower sc) && likeMatch ps s2)
termination_by p s => (p.length, s.length)

/-- The `%term%` pattern `db_query_videos` builds; `strnlen` bounds the copied
term to the 253 bytes that fit the pattern buffer. -/
def likePattern (term : List Char) : List Char :=
  '%' :: (term.take 253 ++ ['%'])

/-- The `WHERE` clause of the search query: pattern match against title,
filename, and description with NULL read as the empty string. -/
def rowMatchesSearch (pattern : List Char) (r : VideoRow) : Bool :=
  likeMatch pattern r.title.toList || likeMatch pattern r.filename.toList ||
    likeMatch pattern ((r.description.getD "").toList)

/-- `ORDER BY id`: insertion sort on the id column. -/
def insertById (r : VideoRow) : List VideoRow → List VideoRow
  | [] => [r]
  | x :: xs => if r.id ≤ x.id then r :: x :: xs else x :: insertById r xs

/-- Rows in id order. -/
def sortById (rows : List VideoRow) : List VideoRow :=
  rows.foldr insertById []

/-- The row set a `db_query_videos` call ranges over: all rows, filtered by
the `LIKE` pattern when a nonempty search term is supplied. -/
def matching_videos (st : VStore) (search : Option String) : List VideoRow :=
  match search with
  | some s =>
    if s ≠ "" then st.rows.filter (rowMatchesSearch (likePattern s.toList))
    else st.rows
  | none => st.rows

/-- `db_query_videos` from `db.c`: reject non-positive limits and negative
offsets; otherwise fetch `limit + 1` matching rows past the offset in id
order, invoke the row callback on at most `limit` of them (returned here as
the emitted list), and report `has_more` exactly when more than `limit` rows
were fetched. -/
def db_query_videos (st : VStore) (search : Option String)
    (limit offset : Int) : Option (List VideoRow × Bool) :=
  if limit ≤ 0 ∨ offset < 0 then none
  else
    some
      ((((sortById (matching_videos st search)).drop offset.toNat).take
          (limit.toNat + 1)).take limit.toNat,
        decide (limit.toNat <
          (((sortById (matching_videos st search)).drop offset.toNat).take
            (limit.toNat + 1)).length))

/-- C6: for every limit ≥ 1, offset ≥ 0 and optional search term,
`db_query_videos` emits exactly the rows at positions
`offset … offset+limit−1` of the matching set in id order — hence at most
`limit` rows — and reports `has_more` if and only if more than `limit`
matching rows lie past the offset, which the `limit + 1`-row fetch
decides. -/
theorem db_query_videos_pagination (st : VStore) (search : Option String)
    (limit offset : Int) (emitted : List VideoRow) (hasMore : Bool)
    (hlim : 1 ≤ limit) (hoff : 0 ≤ offset)
    (h : db_query_videos st search limit offset = some (emitted, hasMore)) :
    emitted =
      ((sortById (matching_videos st search)).drop offset.toNat).take
        limit.toNat ∧
    emitted.length ≤ limit.toNat ∧
    (hasMore = true ↔
      limit.toNat <
        ((sortById (matching_videos st search)).drop offset.toNat).length) := by
  unfold db_query_videos at h
  rw [if_neg (by omega)] at h
  simp only [Option.some.injEq, Prod.mk.injEq] at h
  obtain ⟨he, hm⟩ := h
  subst he
  subst hm
  refine ⟨?_, ?_, ?_⟩
  · rw [List.take_take]
    congr 1
    omega
  · exact List.length_take_le _ _
  · simp only [decide_eq_true_eq, List.length_take]
    omega

/-- C6 (witness): limit 1 at offset 0 over two stored videos emits the first
row only and reports more rows available. -/
theorem db_query_videos_pagination_witness :
    (1 : Int) ≤ 1 ∧ (0 : Int) ≤ 0 ∧
    db_query_videos ⟨9, [⟨1, "a", "a.mp4", none, 0⟩,
        ⟨2, "b", "b.mp4", none, 0⟩]⟩ none 1 0 =
      some ([⟨1, "a", "a.mp4", none, 0⟩], true) ∧
    ([(⟨1, "a", "a.mp4", none, 0⟩ : VideoRow)] =
      ((sortById (matching_videos ⟨9, [⟨1, "a", "a.mp4", none, 0⟩,
          ⟨2, "b", "b.mp4", none, 0⟩]⟩ none)).drop (0 : Int).toNat).take
        (1 : Int).toNat ∧
    ([(⟨1, "a", "a.mp4", none, 0⟩ : VideoRow)]).length ≤ (1 : Int).toNat ∧
    (true = true ↔
      (1 : Int).toNat <
        ((sortById (matching_videos ⟨9, [⟨1, "a", "a.mp4", none, 0⟩,
            ⟨2, "b", "b.mp4", none, 0⟩]⟩ none)).drop (0 : Int).toNat).length)) :=
  ⟨by decide, by decide, by decide,
    db_query_videos_pagination _ none 1 0 _ _ (by decide) (by decide)
      (by decide)⟩

/-! ## C9: the HTTP/1.1 request parser (`http.c`) -/

/-- `%Ns` conversion of `sscanf`: skip whitespace, then read at most `N`
non-whitespace characters; the rest of the input continues right after the
token, even when the token was cut short by the width limit. -/
def scanToken (w : Nat) (l : List Char) : List Char × List Char :=
  (((l.dropWhile isSpace).takeWhile (fun c => !isSpace c)).take w,
    (l.dropWhile isSpace).drop
      ((((l.dropWhile isSpace).takeWhile (fun c => !isSpace c)).take w).length))

/-- HTTP methods of `http_method_from_string`. -/
inductive Method where
  | GET
  | POST
  | PUT
  | DELETE
  | OPTIONS
  | UNKNOWN
deriving DecidableEq

/-- `http_method_from_string`. -/
def http_method_from_string (m : List Char) : Method :=
  if m == "GET".toList then Method.GET
  else if m == "POST".toList then Method.POST
  else if m == "PUT".toList then Method.PUT
  else if m == "DELETE".toList then Method.DELETE
  else if m == "OPTIONS".toList then Method.OPTIONS
  else Method.UNKNOWN

/-- Split a header block into its CRLF-separated lines, as the cursor loop of
`http_parse_request` walks them (the block never contains an inner empty
line, the terminator being the first CRLFCRLF).  Fuel bounds the recursion;
each step strictly shrinks the input. -/
def splitCRLF_go : Nat → List Char → List (List Char)
  | 0, l => [l]
  | fuel + 1, l =>
    match findSubIdx ('\r' :: '\n' :: []) l with
    | none => [l]
    | some i => l.take i :: splitCRLF_go fuel (l.drop (i + 2))

/-- CRLF line splitting. -/
def splitCRLF (l : List Char) : List (List Char) :=
  splitCRLF_go (l.length + 1) l

/-- One header line: on a `':'` the name is what precedes it and the value is
what follows with leading whitespace skipped; lines without a colon are not
stored. -/
def parseHeaderLine (line : List Char) : Option (List Char × List Char) :=
  match splitAtChar ':' line with
  | none => none
  | some (n, v) => some (n, v.dropWhile isSpace)

/-- `http_get_header`: case-insensitive lookup (C `strcasecmp`). -/
def http_get_header (headers : List (List Char × List Char))
    (name : List Char) : Option (List Char) :=
  (headers.find? (fun h => h.1.map asciiLower == name.map asciiLower)).map
    (fun h => h.2)

/-- Saturation of an out-of-range `unsigned long long` conversion at
`ULLONG_MAX`. -/
def u64sat (n : Nat) : Nat :=
  if n ≥ 2 ^ 64 then 2 ^ 64 - 1 else n

/-- Model of C `strtoull(s, NULL, 10)`: leading whitespace, an optional sign,
decimal digits; a minus sign negates in 64-bit unsigned arithmetic (so `-1`
converts to `2^64 − 1`), and values beyond `ULLONG_MAX` saturate. -/
def strtoull (s : List Char) : Nat × List Char :=
  match s.dropWhile isSpace with
  | '+' :: r =>
    if r.takeWhile isDigit = [] then (0, s)
    else (u64sat (digitsVal (r.takeWhile isDigit)),
      r.drop (r.takeWhile isDigit).length)
  | '-' :: r =>
    if r.takeWhile isDigit = [] then (0, s)
    else ((2 ^ 64 - u64sat (digitsVal (r.takeWhile isDigit))) % 2 ^ 64,
      r.drop (r.takeWhile isDigit).length)
  | t =>
    if t.takeWhile isDigit = [] then (0, s)
    else (u64sat (digitsVal (t.takeWhile isDigit)),
      t.drop (t.takeWhile isDigit).length)

/-- Request line and headers of a parsed request. -/
structure HttpHead where
  method : Method
  path : List Char
  query : List Char
  version : List Char
  headers : List (List Char × List Char)
  header_len : Nat
deriving DecidableEq

/-- The 8 MiB buffer cap of the parser. -/
def HTTP_MAX_BUFFER : Nat := 8 * 1024 * 1024

/-- Head part of `http_parse_request` over the byte stream the client sends:
find the CRLFCRLF terminator, `sscanf` the request line as
`%15s %511s %15s` (failing unless all three tokens are nonempty), split the
target at the first `'?'` into path and query (each truncated to the 511
bytes its buffer holds), and collect up to 32 colon-separated headers. -/
def parse_head (data : List Char) : Option HttpHead :=
  match findSubIdx ('\r' :: '\n' :: '\r' :: '\n' :: []) data with
  | none => none
  | some i =>
    match findSubIdx ('\r' :: '\n' :: []) data with
    | none => none
    | some j =>
      if (scanToken 15 (data.take j)).1 = [] ∨
          (scanToken 511 (scanToken 15 (data.take j)).2).1 = [] ∨
          (scanToken 15
            (scanToken 511 (scanToken 15 (data.take j)).2).2).1 = [] then
        none
      else
        some
          { method :=
              http_method_from_string (scanToken 15 (data.take j)).1
            path :=
              (match splitAtChar '?'
                  (scanToken 511 (scanToken 15 (data.take j)).2).1 with
                | none => (scanToken 511 (scanToken 15 (data.take j)).2).1
                | some (pth, _) => pth).take 511
            query :=
              (match splitAtChar '?'
                  (scanToken 511 (scanToken 15 (data.take j)).2).1 with
                | none => []
                | some (_, q) => q).take 511
            version :=
              ((scanToken 15
                (scanToken 511 (scanToken 15 (data.take j)).2).2).1).take 15
            headers :=
              ((splitCRLF ((data.drop (j + 2)).take (i - (j + 2)))).filterMap
                parseHeaderLine).take 32
            header_len := i + 4 }

/-- Content-Length extraction of `http_parse_request`: a missing header means
zero, otherwise `strtoull` of the value. -/
def content_length_of (h : HttpHead) : Nat :=
  match http_get_header h.headers ("Content-Length".toList) with
  | none => 0
  | some v => (strtoull v).1

/-- A fully parsed request. -/
structure HttpRequest where
  head : HttpHead
  body_length : Nat
  raw_length : Nat
deriving DecidableEq

/-- `http_parse_request` over the byte stream the client sends: parse the
head, reject a Content-Length above the 8 MiB cap, then require the declared
body to be present in the stream (the C code would block in `recv` waiting
for the missing bytes).  Any bytes past `header_len + content_length` are
ignored. -/
def http_parse_request (data : List Char) : Option HttpRequest :=
  match parse_head data with
  | none => none
  | some h =>
    if content_length_of h > HTTP_MAX_BUFFER then none
    else if h.header_len + content_length_of h ≤ data.length then
      some ⟨h, content_length_of h, h.header_len + content_length_of h⟩
    else none

/-- A string whose first non-whitespace character is neither a digit nor a
sign, so that `strtoull` performs no conversion at all. -/
def no_number_start (v : List Char) : Bool :=
  match v.dropWhile isSpace with
  | [] => true
  | c :: _ => !isDigit c && c != '+' && c != '-'

theorem findSubIdx_le (pat l : List Char) (i : Nat)
    (h : findSubIdx pat l = some i) : i + pat.length ≤ l.length := by
  induction l generalizing i with
  | nil =>
    unfold findSubIdx at h
    split at h
    · next hpre =>
      have hpat : pat = [] := by
        cases pat with
        | nil => rfl
        | cons a t => simp [List.isPrefixOf] at hpre
      simp only [Option.some.injEq] at h
      subst h
      simp [hpat]
    · exact absurd h (by simp)
  | cons c rest ih =>
    unfold findSubIdx at h
    split at h
    · next hpre =>
      simp only [Option.some.injEq] at h
      subst h
      simpa using (List.isPrefixOf_iff_prefix.mp hpre).length_le
    · next hpre =>
      cases hfr : findSubIdx pat rest with
      | none => rw [hfr] at h; simp at h
      | some k =>
        rw [hfr] at h
        simp only [Option.map_some', Option.some.injEq] at h
        subst h
        have := ih k hfr
        simp only [List.length_cons]
        omega

theorem parse_head_header_len_le (data : List Char) (h : HttpHead)
    (hp : parse_head data = some h) : h.header_len ≤ data.length := by
  unfold parse_head at hp
  split at hp
  · exact absurd hp (by simp)
  · next i hi =>
    split at hp
    · exact absurd hp (by simp)
    · split at hp
      · exact absurd hp (by simp)
      · simp only [Option.some.injEq] at hp
        subst hp
        have := findSubIdx_le _ _ _ hi
        simp only []
        simp only [List.length_cons, List.length_nil] at this
        omega

theorem strtoull_of_no_number (v : List Char) (h : no_number_start v = true) :
    (strtoull v).1 = 0 := by
  unfold no_number_start at h
  unfold strtoull
  cases hd : v.dropWhile isSpace with
  | nil => simp
  | cons c cs =>
    rw [hd] at h
    dsimp only at h
    simp only [Bool.and_eq_true, Bool.not_eq_true', bne_iff_ne] at h
    split
    · next r heq =>
      injection heq with h1 h2
      exact absurd h1 h.1.2
    · next r heq =>
      injection heq with h1 h2
      exact absurd h1 h.2
    · rw [List.takeWhile_cons_of_neg (by simp [h.1.1])]
      simp

/-- C9 (counterexample): the header value `-1` contains no leading decimal
digits, yet `http_parse_request` rejects the request: `strtoull` consumes the
minus sign and wraps the value to `2^64 − 1`, which exceeds the 8 MiB cap. -/
theorem content_length_minus_one_rejected :
    http_parse_request
        ("GET / HTTP/1.1\r\nContent-Length: -1\r\n\r\n".toList) = none ∧
    (parse_head ("GET / HTTP/1.1\r\nContent-Length: -1\r\n\r\n".toList)).bind
        (fun h => http_get_header h.headers ("Content-Length".toList)) =
      some ("-1".toList) ∧
    ("-1".toList).takeWhile isDigit = [] :=
  ⟨by decide, by decide, by decide⟩

/-- C9 (amended): for every request whose head parses and whose
Content-Length value starts with neither a decimal digit nor a `+`/`-` sign
(e.g. `abc`), `strtoull` yields 0 and the request parses successfully with
`body_length` 0; the bytes after the header terminator are ignored
(`raw_length = header_len`).  A sign without digits, such as the value `-1`,
is instead rejected through the wrapped 64-bit value. -/
theorem content_length_without_number_accepted (data : List Char)
    (h : HttpHead) (v : List Char)
    (hp : parse_head data = some h)
    (hcl : http_get_header h.headers ("Content-Length".toList) = some v)
    (hnn : no_number_start v = true) :
    http_parse_request data = some ⟨h, 0, h.header_len⟩ := by
  have hc0 : content_length_of h = 0 := by
    unfold content_length_of
    rw [hcl]
    exact strtoull_of_no_number v hnn
  have hlen := parse_head_header_len_le data h hp
  unfold http_parse_request
  rw [hp]
  dsimp only
  rw [hc0, if_neg (by norm_num [HTTP_MAX_BUFFER]), if_pos (by omega)]
  simp

/-- Head of the concrete request used by the C9 witness. -/
def c9WitnessHead : HttpHead :=
  ⟨Method.GET, "/".toList, [], "HTTP/1.1".toList,
    [("Content-Length".toList, "abc".toList)], 39⟩

/-- C9 (witness): `Content-Length: abc` is parsed as 0; the request succeeds
with an empty body and the trailing bytes `XYZ` are ignored. -/
theorem content_length_without_number_accepted_witness :
    http_parse_request
        ("GET / HTTP/1.1\r\nContent-Length: abc\r\n\r\nXYZ".toList) =
      some ⟨c9WitnessHead, 0, c9WitnessHead.header_len⟩ :=
  content_length_without_number_accepted
    ("GET / HTTP/1.1\r\nContent-Length: abc\r\n\r\nXYZ".toList)
    c9WitnessHead ("abc".toList) (by decide) (by decide) (by decide)
